import Mathlib

/-!
# Coordinator core of the distributed job scheduler

A shallow embedding of `src/coordinator` (Go): the `jobs` and `workers` tables, the three
broker lists, and the goroutines that the coordinator spawns and that are still asleep.

Conventions of the embedding.

* Tables are lists of rows; an `UPDATE ... WHERE key = v` rewrites every row whose key is `v`,
  a `SELECT ... WHERE key = v` scanned by `QueryRow` yields the first such row.  The primary-key
  constraints of the schema are hypotheses (`Nodup`) of the theorems that need them.
* The `id` column of `jobs` is held as the decimal rendering that travels on the wire
  (`Job.ID` is a Go `string`).
* Time is an integer count of nanoseconds; `NOW()` and `time.Now()` are the parameter `now`.
* A broker list is a Lean list whose head is the left end: `LPUSH` conses, `BRPOP` takes the
  last element.
* Every database statement and broker call succeeds, except in `selectWorkerAndLeaseJob`,
  whose error returns are kept (parameter `dbErr`).
* Prometheus metrics and log lines are not part of the state.
-/

namespace Coordinator

/-! ## Constants (`main.go`) and `time.Duration` -/

/-- The constant `MAX_RETRIES` of `main.go`. -/
def MAX_RETRIES : Int := 3

/-- The number of nanoseconds in `time.Second`. -/
def Second : Int := 1000000000

/-- The number of nanoseconds in `time.Millisecond`. -/
def Millisecond : Int := 1000000

/-- Two's-complement wrap-around of a signed 64-bit integer (`int64`, `time.Duration`). -/
def wrapInt64 (x : Int) : Int := (x + 2 ^ 63) % 2 ^ 64 - 2 ^ 63

/-! ## `utils.go` -/

/-- The conversion `time.Duration(math.Pow(2, float64(retryCount)))`.  The power of two is exact
in `float64`; below one it truncates to zero, up to `2^62` it is converted exactly, and from
`2^63` on it does not fit an `int64`, where Go leaves the result to the implementation: that
result is the parameter `oor`. -/
def pow2Duration (oor : Int) (retryCount : Int) : Int :=
  if retryCount < 0 then 0
  else if retryCount ≤ 62 then 2 ^ retryCount.toNat
  else oor

/-- The function `calculateBackoffDelay` of `utils.go`; `draw` is the value of
`rand.Intn(1000)`. -/
def calculateBackoffDelay (oor : Int) (draw : Int) (retryCount : Int) : Int :=
  let baseDelay := wrapInt64 (pow2Duration oor retryCount * Second)
  let jitter := wrapInt64 (draw * Millisecond)
  let maxDelay := 60 * Second
  let baseDelay := if baseDelay > maxDelay then maxDelay else baseDelay
  wrapInt64 (baseDelay + jitter)

/-! ## Data model (`main.go` and the persisted schema) -/

/-- A JSON value as `encoding/json` decodes it into an `interface{}`.  Numbers are kept as
integers: the coordinator only tests whether a value is a string. -/
inductive JVal where
  | null
  | bool (b : Bool)
  | num (n : Int)
  | str (s : String)
  | arr (xs : List JVal)
  | obj (kvs : List (String × JVal))

/-- A decoded JSON object, the Go type `map[string]interface{}`. -/
abbrev JObj := List (String × JVal)

/-- The Go struct `Job`: the message that travels on `job_queue`. -/
structure Job where
  ID : String
  Name : String
  Payload : String
deriving DecidableEq, Repr

/-- A row of the table `jobs`. -/
structure JobRow where
  id : String
  name : String
  payload : String
  status : String
  retries : Int
  lease_start : Option Int
  lease_timeout : Option Int
  leased_to_worker : Option String
  completed_at : Option Int
  result : Option String
deriving DecidableEq, Repr

/-- A row of the table `workers`. -/
structure WorkerRow where
  url : String
  state : String
  jobs_completed : Int
deriving DecidableEq, Repr

/-- A message of `dead_letter_queue`, as built by `sendToDeadLetterQueue`. -/
structure DlqMessage where
  job_id : String
  original_job : JObj
  failed_at : Int
  reason : String

/-- A goroutine the coordinator has spawned and that has not yet acted:
`requeue` is the closure of `processJobResults` that sleeps and then calls `requeueFailedJob`,
`push` is the closure of `leaseMonitor` that sleeps and then pushes the job,
`deliver` is `go sendJobToWorker(workerUrl, job)`.  `due` is the time the sleep ends. -/
inductive Pending where
  | requeue (due : Int) (jobID : String)
  | push (due : Int) (job : Job)
  | deliver (workerUrl : String) (job : Job)

/-- The state of the coordinator: both tables, the two lists it writes, and the sleeping
goroutines. -/
structure State where
  jobs : List JobRow
  workers : List WorkerRow
  job_queue : List Job
  dead_letter_queue : List DlqMessage
  pending : List Pending

/-! ## Database and broker primitives -/

/-- The first row of `jobs` with the given id (`SELECT ... FROM jobs WHERE id = $1`). -/
def findJob (jobs : List JobRow) (jobID : String) : Option JobRow :=
  jobs.find? (fun r => decide (r.id = jobID))

/-- The effect of `UPDATE jobs SET ... WHERE id = $1` on the table. -/
def updateJob (jobs : List JobRow) (jobID : String) (f : JobRow → JobRow) : List JobRow :=
  jobs.map (fun r => if r.id = jobID then f r else r)

/-- The effect of `UPDATE workers SET ... WHERE url = $1` on the table. -/
def updateWorker (workers : List WorkerRow) (workerUrl : String) (f : WorkerRow → WorkerRow) :
    List WorkerRow :=
  workers.map (fun w => if w.url = workerUrl then f w else w)

/-- The function `updateWorkerState` of `worker.go`. -/
def updateWorkerState (workerUrl : String) (state : String) (s : State) : State :=
  { s with workers := updateWorker s.workers workerUrl (fun w => { w with state := state }) }

/-- The function `updateWorkerJobCount` of `worker.go`. -/
def updateWorkerJobCount (workerUrl : String) (s : State) : State :=
  { s with
    workers :=
      updateWorker s.workers workerUrl (fun w => { w with jobs_completed := w.jobs_completed + 1 }) }

/-- The value under a key of a decoded JSON object (`jobResult["key"]`). -/
def JObj.get (o : JObj) (key : String) : Option JVal :=
  match o.find? (fun kv => decide (kv.1 = key)) with
  | some kv => some kv.2
  | none => none

/-! ## Worker selection and leasing (`jobs.go`) -/

/-- The order of `ORDER BY jobs_completed ASC, url ASC`; text is compared code point by code
point. -/
def workerLe (a b : WorkerRow) : Prop :=
  a.jobs_completed < b.jobs_completed ∨
    (a.jobs_completed = b.jobs_completed ∧ a.url.toList ≤ b.url.toList)

instance workerLeDecidable : DecidableRel workerLe := fun a b => by
  unfold workerLe
  exact inferInstance

/-- The rows of `workers` with `state = 'available'`. -/
def availableWorkers (workers : List WorkerRow) : List WorkerRow :=
  workers.filter (fun w => decide (w.state = "available"))

/-- The query `SELECT url FROM workers WHERE state = 'available'
ORDER BY jobs_completed ASC, url ASC LIMIT 1`. -/
def selectWorker (workers : List WorkerRow) : Option String :=
  ((availableWorkers workers).insertionSort workerLe).head?.map (fun w => w.url)

/-- What `selectWorkerAndLeaseJob` returns, with the state it leaves. -/
structure LeaseResult where
  workerUrl : String
  err : Bool
  state : State

/-- The function `selectWorkerAndLeaseJob` of `jobs.go`.  With `dbErr` some statement of the
transaction fails: the deferred rollback undoes it and the error is returned. -/
def selectWorkerAndLeaseJob (dbErr : Bool) (now : Int) (job : Job) (s : State) : LeaseResult :=
  if dbErr then { workerUrl := "", err := true, state := s }
  else
    match selectWorker s.workers with
    | none => { workerUrl := "", err := false, state := s }
    | some workerUrl =>
      { workerUrl := workerUrl
        err := false
        state :=
          { s with
            jobs := updateJob s.jobs job.ID (fun r =>
              { r with
                status := "leased"
                lease_start := some now
                lease_timeout := some 20
                leased_to_worker := some workerUrl })
            workers := updateWorker s.workers workerUrl (fun w => { w with state := "busy" }) } }

/-! ## Result reconciliation, requeue and dead-letter parking (`jobs.go`) -/

/-- The function `sendToDeadLetterQueue` of `jobs.go`. -/
def sendToDeadLetterQueue (now : Int) (jobID : String) (jobResult : JObj) (s : State) : State :=
  { s with
    dead_letter_queue :=
      { job_id := jobID
        original_job := jobResult
        failed_at := now
        reason := "max_retries_exceeded" } :: s.dead_letter_queue }

/-- The function `requeueFailedJob` of `jobs.go`. -/
def requeueFailedJob (jobID : String) (s : State) : State :=
  match findJob s.jobs jobID with
  | none => s
  | some row =>
    { s with
      jobs := updateJob s.jobs jobID (fun r =>
        { r with
          status := "pending"
          lease_start := none
          lease_timeout := none
          retries := r.retries + 1 })
      job_queue := { ID := row.id, Name := row.name, Payload := row.payload } :: s.job_queue }

/-- The type assertion `v.(string)` on a map entry: `none` is the run-time panic of a failed
assertion (a missing key and JSON `null` both give the nil interface). -/
def asString : Option JVal → Option String
  | some (JVal.str x) => some x
  | _ => none

/-- The guarded assertion on `created_at`: the key may be absent, but when it is there it is
asserted to be a string.  The value `false` is the panic. -/
def createdAtOk : Option JVal → Bool
  | none => true
  | some (JVal.str _) => true
  | some _ => false

/-- What one iteration of a loop leaves: the state, and whether the goroutine panicked (the
state is then the one at the moment of the panic). -/
structure Outcome where
  state : State
  panicked : Bool

/-- The two statements that end an iteration of `processJobResults`. -/
def releaseWorker (workerUrl : String) (s : State) : State :=
  updateWorkerState workerUrl "available" (updateWorkerJobCount workerUrl s)

/-- One iteration of the loop of `processJobResults`, on the decoded message `jobResult`;
`draw` is the jitter drawn if a retry is scheduled. -/
def processJobResults (oor : Int) (draw : Int) (now : Int) (jobResult : JObj) (s : State) :
    Outcome :=
  match asString (jobResult.get "job_id") with
  | none => { state := s, panicked := true }
  | some jobID =>
    match asString (jobResult.get "status") with
    | none => { state := s, panicked := true }
    | some status =>
      match asString (jobResult.get "worker_url") with
      | none => { state := s, panicked := true }
      | some workerUrl =>
        match findJob s.jobs jobID with
        | none => { state := s, panicked := false }
        | some row =>
          if row.status = "completed" then { state := s, panicked := false }
          else if status = "completed" then
            if createdAtOk (jobResult.get "created_at") then
              match asString (jobResult.get "result") with
              | none => { state := s, panicked := true }
              | some result =>
                { state :=
                    releaseWorker workerUrl
                      { s with
                        jobs := updateJob s.jobs jobID (fun r =>
                          { r with
                            status := status
                            completed_at := some now
                            result := some result }) }
                  panicked := false }
            else { state := s, panicked := true }
          else if row.retries ≥ MAX_RETRIES then
            let s1 := sendToDeadLetterQueue now jobID jobResult s
            { state :=
                releaseWorker workerUrl
                  { s1 with
                    jobs := updateJob s1.jobs jobID (fun r =>
                      { r with status := "failed", completed_at := some now }) }
              panicked := false }
          else
            let delay := calculateBackoffDelay oor draw row.retries
            { state :=
                releaseWorker workerUrl
                  { s with pending := s.pending ++ [Pending.requeue (now + delay) jobID] }
              panicked := false }

/-! ## Lease monitor (`jobs.go`) -/

/-- The condition `lease_start + (lease_timeout || ' seconds')::interval < NOW()`; it is not
true when a lease column is `NULL`. -/
def leaseExpired (now : Int) (r : JobRow) : Bool :=
  match r.lease_start, r.lease_timeout with
  | some start, some timeout => decide (start + timeout * Second < now)
  | _, _ => false

/-- The rows the query of `leaseMonitor` returns. -/
def expiredLeases (now : Int) (jobs : List JobRow) : List JobRow :=
  jobs.filter (fun r => decide (r.status = "leased") && leaseExpired now r)

/-- The context object `leaseMonitor` hands to `sendToDeadLetterQueue`. -/
def timeoutResult (expiredJob : JobRow) : JObj :=
  [("job_id", JVal.str expiredJob.id),
   ("name", JVal.str expiredJob.name),
   ("payload", JVal.str expiredJob.payload),
   ("status", JVal.str "timeout"),
   ("error", JVal.str "Job lease expired - max retries exceeded"),
   ("worker_url", JVal.str "")]

/-- The body of the loop `for _, expiredJob := range expiredJobs` of `leaseMonitor`; the row
`expiredJob` is the one read by the query, `draw` gives the jitter drawn for a job. -/
def leaseMonitorJob (oor : Int) (draw : String → Int) (now : Int) (s : State)
    (expiredJob : JobRow) : State :=
  if expiredJob.retries ≥ MAX_RETRIES then
    let s1 := sendToDeadLetterQueue now expiredJob.id (timeoutResult expiredJob) s
    { s1 with
      jobs := updateJob s1.jobs expiredJob.id (fun r =>
        { r with status := "failed", completed_at := some now }) }
  else
    let delay := calculateBackoffDelay oor (draw expiredJob.id) expiredJob.retries
    { s with
      jobs := updateJob s.jobs expiredJob.id (fun r =>
        { r with
          status := "pending"
          lease_start := none
          lease_timeout := none
          retries := r.retries + 1 })
      pending :=
        s.pending ++
          [Pending.push (now + delay)
            { ID := expiredJob.id, Name := expiredJob.name, Payload := expiredJob.payload }] }

/-- One pass of the loop of `leaseMonitor`. -/
def leaseMonitor (oor : Int) (draw : String → Int) (now : Int) (s : State) : State :=
  (expiredLeases now s.jobs).foldl (leaseMonitorJob oor draw now) s

/-! ## Heartbeat verifier and delivery (`worker.go`) -/

/-- The body of the second loop `for i, w := range workers` of `workerHeartbeatVerifier`;
`keys` are the keys present in the broker, so `vals[i] == nil` is `"worker:" + w.URL ∉ keys`. -/
def heartbeatWorker (keys : List String) (s : State) (w : WorkerRow) : State :=
  if ("worker:" ++ w.url) ∈ keys then
    if w.state = "unavailable" then updateWorkerState w.url "available" s else s
  else
    if w.state ≠ "unavailable" then updateWorkerState w.url "unavailable" s else s

/-- One pass of the loop of `workerHeartbeatVerifier`: the rows are read once, then each is
compared with its key. -/
def workerHeartbeatVerifier (keys : List String) (s : State) : State :=
  if s.workers.length = 0 then s
  else s.workers.foldl (heartbeatWorker keys) s

/-- How the POST of `sendJobToWorker` ends. -/
inductive Delivery where
  | transportError
  | accepted
  | rejected
  | unreadableBody
deriving DecidableEq

/-- The function `sendJobToWorker` of `worker.go`. -/
def sendJobToWorker (outcome : Delivery) (workerUrl : String) (job : Job) (s : State) : State :=
  let s1 := updateWorkerState workerUrl "busy" s
  match outcome with
  | Delivery.transportError =>
    let s2 := updateWorkerState workerUrl "unavailable" s1
    { s2 with job_queue := job :: s2.job_queue }
  | Delivery.accepted => s1
  | Delivery.rejected => { s1 with job_queue := job :: s1.job_queue }
  | Delivery.unreadableBody => s1

/-! ## Dispatcher (`jobs.go`) and the coordinator as a transition system -/

/-- One iteration of the loop of `distributeJobs`; `none` when `job_queue` is empty and the
blocking pop waits. -/
def distributeJobs (dbErr : Bool) (now : Int) (s : State) : Option State :=
  match s.job_queue.getLast? with
  | none => none
  | some job =>
    let r := selectWorkerAndLeaseJob dbErr now job { s with job_queue := s.job_queue.dropLast }
    if r.workerUrl = "" ∨ r.err = true then
      some { r.state with job_queue := job :: r.state.job_queue }
    else
      some { r.state with pending := r.state.pending ++ [Pending.deliver r.workerUrl job] }

/-- The moves of the coordinator. -/
inductive Action where
  | dispatch (dbErr : Bool)
  | result (draw : Int) (jobResult : JObj)
  | monitor (draw : String → Int)
  | wake (i : Nat)
  | post (i : Nat) (outcome : Delivery)

/-- The `i`-th sleeping goroutine wakes at time `now`: a requeue or a push whose sleep is
over acts and leaves the list. -/
def wake (now : Int) (i : Nat) (s : State) : Option State :=
  match s.pending.get? i with
  | some (Pending.requeue due jobID) =>
    if due ≤ now then some (requeueFailedJob jobID { s with pending := s.pending.eraseIdx i })
    else none
  | some (Pending.push due job) =>
    if due ≤ now then
      some { s with pending := s.pending.eraseIdx i, job_queue := job :: s.job_queue }
    else none
  | _ => none

/-- The `i`-th pending goroutine, a delivery, runs `sendJobToWorker` to its end. -/
def post (i : Nat) (outcome : Delivery) (s : State) : Option State :=
  match s.pending.get? i with
  | some (Pending.deliver workerUrl job) =>
    some (sendJobToWorker outcome workerUrl job { s with pending := s.pending.eraseIdx i })
  | _ => none

/-- One move of the coordinator at time `now`; `none` when the move is not possible (empty
queue, sleep not over) or the reconciler panics.  The jitter is the draw of the move reduced to
`[0, 1000)`, the range of `rand.Intn(1000)`. -/
def step (oor : Int) (now : Int) (a : Action) (s : State) : Option State :=
  match a with
  | Action.dispatch dbErr => distributeJobs dbErr now s
  | Action.result draw jobResult =>
    let out := processJobResults oor (draw % 1000) now jobResult s
    if out.panicked then none else some out.state
  | Action.monitor draw => some (leaseMonitor oor (fun jobID => draw jobID % 1000) now s)
  | Action.wake i => wake now i s
  | Action.post i outcome => post i outcome s

/-- The states the coordinator reaches from `s0`, with the time at which it reaches them;
time never runs backwards. -/
inductive Reachable (oor : Int) (s0 : State) : Int → State → Prop where
  | start (t : Int) : Reachable oor s0 t s0
  | next {t now : Int} {s s' : State} (a : Action) :
      Reachable oor s0 t s → t ≤ now → step oor now a s = some s' → Reachable oor s0 now s'

/-- Runs a timed list of moves. -/
def runTrace (oor : Int) : List (Int × Action) → State → Option State
  | [], s => some s
  | (now, a) :: rest, s =>
    match step oor now a s with
    | none => none
    | some s' => runTrace oor rest s'

/-! ## The claim of bounded retries, as a predicate on the transition system -/

/-- Every job is pending and has never been retried. -/
def FreshJobs (s : State) : Prop :=
  ∀ r ∈ s.jobs, r.status = "pending" ∧ r.retries = 0

/-- In every state reached from fresh jobs, a call of `selectWorkerAndLeaseJob` on the popped
queue message that hands the dispatcher a worker finds the job with at most `MAX_RETRIES`
retries. -/
def BoundedRetriesAtLease (oor : Int) : Prop :=
  ∀ (s0 : State) (t : Int) (s : State), FreshJobs s0 → Reachable oor s0 t s →
    ∀ (now : Int) (dbErr : Bool) (job : Job) (row : JobRow),
      t ≤ now → s.job_queue.getLast? = some job → findJob s.jobs job.ID = some row →
      (selectWorkerAndLeaseJob dbErr now job
          { s with job_queue := s.job_queue.dropLast }).workerUrl ≠ "" →
      (selectWorkerAndLeaseJob dbErr now job
          { s with job_queue := s.job_queue.dropLast }).err = false →
      row.retries ≤ MAX_RETRIES

/-- The moves of a trace are in time order, starting no earlier than `t`. -/
def timeOrdered : Int → List (Int × Action) → Bool
  | _, [] => true
  | t, (now, _) :: rest => decide (t ≤ now) && timeOrdered now rest

/-- The time of the last move of a trace that starts at `t`. -/
def endTime : Int → List (Int × Action) → Int
  | t, [] => t
  | _, (now, _) :: rest => endTime now rest

/-! ## A run with two racing requeues -/

/-- The queue message of job 1. -/
def job1 : Job := { ID := "1", Name := "A", Payload := "x" }

/-- The failure report of a worker for job 1. -/
def failureFrom (workerUrl : String) : JObj :=
  [("job_id", JVal.str "1"), ("status", JVal.str "error"), ("worker_url", JVal.str workerUrl)]

/-- One submitted job and two registered workers. -/
def raceInit : State :=
  { jobs :=
      [{ id := "1", name := "A", payload := "x", status := "pending", retries := 0
         lease_start := none, lease_timeout := none, leased_to_worker := none
         completed_at := none, result := none }]
    workers :=
      [{ url := "http://w1", state := "available", jobs_completed := 0 },
       { url := "http://w2", state := "available", jobs_completed := 0 }]
    job_queue := [job1]
    dead_letter_queue := []
    pending := [] }

/-- The run: the first worker reports its failure 19.5 s into a 20 s lease, the lease monitor
finds the lease expired before the scheduled requeue has run, and both requeue the job.  The two
queue messages put the job on both workers, both fail, and both failures schedule a requeue. -/
def raceTrace : List (Int × Action) :=
  [(0, Action.dispatch false),
   (0, Action.post 0 Delivery.accepted),
   (19500000000, Action.result 999 (failureFrom "http://w1")),
   (21000000000, Action.monitor (fun _ => 0)),
   (21499000000, Action.wake 0),
   (21500000000, Action.dispatch false),
   (21500000000, Action.post 1 Delivery.accepted),
   (22000000000, Action.wake 0),
   (22000000000, Action.dispatch false),
   (22000000000, Action.post 0 Delivery.accepted),
   (23000000000, Action.result 0 (failureFrom "http://w2")),
   (24000000000, Action.result 0 (failureFrom "http://w1")),
   (27000000000, Action.wake 0),
   (27000000000, Action.dispatch false),
   (27000000000, Action.post 1 Delivery.accepted),
   (28000000000, Action.wake 0)]

/-- What the run is checked for: it is possible move by move, and it ends with job 1 at the
right end of `job_queue`, four retries on its row, and `selectWorkerAndLeaseJob` returning the
first worker for it without error. -/
def raceCheck (oor : Int) : Bool :=
  match runTrace oor raceTrace raceInit with
  | none => false
  | some s =>
    (s.job_queue.getLast? == some job1) &&
      ((findJob s.jobs "1").map (fun r => r.retries) == some 4) &&
      ((selectWorkerAndLeaseJob false 28000000000 job1
          { s with job_queue := s.job_queue.dropLast }).workerUrl == "http://w1") &&
      ((selectWorkerAndLeaseJob false 28000000000 job1
          { s with job_queue := s.job_queue.dropLast }).err == false)

/-! ## Sample states for the reconciler -/

/-- A row for job 1, leased to the first worker at time 0, in the given status and retry
count. -/
def oneJobRow (status : String) (retries : Int) (completed_at : Option Int)
    (result : Option String) : JobRow :=
  { id := "1", name := "A", payload := "x", status := status, retries := retries
    lease_start := some 0, lease_timeout := some 20
    leased_to_worker := some "http://w1"
    completed_at := completed_at, result := result }

/-- A table with the single job 1 and one worker that is busy with it. -/
def oneJobState (status : String) (retries : Int) (completed_at : Option Int)
    (result : Option String) : State :=
  { jobs := [oneJobRow status retries completed_at result]
    workers := [{ url := "http://w1", state := "busy", jobs_completed := 0 }]
    job_queue := []
    dead_letter_queue := []
    pending := [] }

/-- The completion report of a worker for job 1. -/
def completionFrom (workerUrl : String) : JObj :=
  [("job_id", JVal.str "1"), ("status", JVal.str "completed"),
   ("worker_url", JVal.str workerUrl), ("result", JVal.str "ok")]

/-- Job 1 leased at time 0 with 3 retries and never answered, and the worker busy with it. -/
def stalledState : State := oneJobState "leased" 3 none none

/-! ## Consecutive leases -/

/-- Consecutive calls of `selectWorkerAndLeaseJob`, one for each job of the list at the given
time, with no database error and no other operation in between; the results in order. -/
def leaseEach : List (Int × Job) → State → List LeaseResult
  | [], _ => []
  | (now, job) :: rest, s =>
    selectWorkerAndLeaseJob false now job s ::
      leaseEach rest (selectWorkerAndLeaseJob false now job s).state

/-- Three available workers with the same count, a busy one, and three jobs. -/
def fairState : State :=
  { jobs :=
      [{ id := "1", name := "A", payload := "x", status := "pending", retries := 0
         lease_start := none, lease_timeout := none, leased_to_worker := none
         completed_at := none, result := none },
       { id := "2", name := "B", payload := "y", status := "pending", retries := 0
         lease_start := none, lease_timeout := none, leased_to_worker := none
         completed_at := none, result := none },
       { id := "3", name := "C", payload := "z", status := "pending", retries := 0
         lease_start := none, lease_timeout := none, leased_to_worker := none
         completed_at := none, result := none }]
    workers :=
      [{ url := "http://w3", state := "available", jobs_completed := 5 },
       { url := "http://w0", state := "busy", jobs_completed := 0 },
       { url := "http://w1", state := "available", jobs_completed := 5 },
       { url := "http://w2", state := "available", jobs_completed := 5 }]
    job_queue := []
    dead_letter_queue := []
    pending := [] }

/-- The three calls on the three jobs. -/
def fairCalls : List (Int × Job) :=
  [(0, { ID := "1", Name := "A", Payload := "x" }),
   (1, { ID := "2", Name := "B", Payload := "y" }),
   (2, { ID := "3", Name := "C", Payload := "z" })]

/-! ## Sample result messages that are JSON objects but not well formed -/

/-- The message `{"status": "error", "worker_url": "http://w1"}`: no `job_id`. -/
def resultWithoutJobId : JObj :=
  [("status", JVal.str "error"), ("worker_url", JVal.str "http://w1")]

/-- The message `{"job_id": 1, "status": "error", "worker_url": "http://w1"}`: the id is a
number. -/
def resultWithNumericJobId : JObj :=
  [("job_id", JVal.num 1), ("status", JVal.str "error"), ("worker_url", JVal.str "http://w1")]

/-- A completion report for job 1 without the optional `result`. -/
def completionWithoutResult : JObj :=
  [("job_id", JVal.str "1"), ("status", JVal.str "completed"),
   ("worker_url", JVal.str "http://w1")]

/-- A completion report for job 1 whose `created_at` is a number. -/
def completionWithNumericCreatedAt : JObj :=
  [("job_id", JVal.str "1"), ("status", JVal.str "completed"),
   ("worker_url", JVal.str "http://w1"), ("result", JVal.str "ok"),
   ("created_at", JVal.num 1730000000)]

/-! ## Lemmas on the backoff delay -/

theorem wrapInt64_of_range {x : Int} (h1 : -(2 : Int) ^ 63 ≤ x) (h2 : x < 2 ^ 63) :
    wrapInt64 x = x := by
  unfold wrapInt64
  rw [Int.emod_eq_of_lt (by linarith) (by linarith)]
  ring

/-- As long as the multiplication by `time.Second` does not overflow, that is up to a retry
count of 33, the delay is the capped power of two plus the jitter. -/
theorem calculateBackoffDelay_eq (oor : Int) (n : Nat) (j : Int) (hn : n ≤ 33)
    (hj0 : 0 ≤ j) (hj : j < 1000) :
    calculateBackoffDelay oor j (n : Int) =
      min (2 ^ n * Second) (60 * Second) + j * Millisecond := by
  have hp1 : (1 : Int) ≤ 2 ^ n := one_le_pow₀ (by norm_num)
  have hp2 : (2 : Int) ^ n ≤ 2 ^ 33 := pow_le_pow_right₀ (by norm_num) hn
  have hpow : pow2Duration oor (n : Int) = 2 ^ n := by
    unfold pow2Duration
    have h0 : ¬ ((n : Int) < 0) := by omega
    have h1 : (n : Int) ≤ 62 := by omega
    simp [h0, h1]
  unfold calculateBackoffDelay
  simp only [hpow]
  have hS : Second = 1000000000 := rfl
  have hM : Millisecond = 1000000 := rfl
  rw [wrapInt64_of_range (x := 2 ^ n * Second) (by rw [hS]; nlinarith) (by rw [hS]; nlinarith),
    wrapInt64_of_range (x := j * Millisecond) (by rw [hM]; nlinarith) (by rw [hM]; nlinarith)]
  by_cases hc : 2 ^ n * Second > 60 * Second
  · rw [if_pos hc, min_eq_right (le_of_lt hc)]
    exact wrapInt64_of_range (by rw [hS, hM]; nlinarith) (by rw [hS, hM]; nlinarith)
  · rw [if_neg hc, min_eq_left (not_lt.mp hc)]
    rw [hS] at hc
    exact wrapInt64_of_range (by rw [hS, hM]; nlinarith) (by rw [hS, hM]; nlinarith)

/-- The out-of-range conversion plays no part for a retry count of at most 62. -/
theorem calculateBackoffDelay_oor (oor oor' : Int) (j r : Int) (h : r ≤ 62) :
    calculateBackoffDelay oor j r = calculateBackoffDelay oor' j r := by
  have hp : pow2Duration oor r = pow2Duration oor' r := by
    unfold pow2Duration
    rw [if_pos h, if_pos h]
  unfold calculateBackoffDelay
  rw [hp]

/-- C8 (code defect): at retry count 34 and jitter draw 0, `calculateBackoffDelay` returns a
negative duration and not the 60 seconds of `min(2^r s, 60 s) + j ms`: the product with
`time.Second` has wrapped around before the cap is applied. -/
theorem calculateBackoffDelay_wraps_at_34 (oor : Int) :
    calculateBackoffDelay oor 0 34 = -1266874889709551616 ∧
      calculateBackoffDelay oor 0 34 ≠ min (2 ^ 34 * Second) (60 * Second) + 0 * Millisecond := by
  have h : calculateBackoffDelay oor 0 34 = -1266874889709551616 := by
    rw [calculateBackoffDelay_oor oor 0 0 34 (by norm_num)]
    decide
  refine ⟨h, ?_⟩
  rw [h]
  decide

/-- C9 as stated fails: at retry count 6 the delay is capped at 60 s, so even with the largest
jitter it stays below the claimed lower bound of `2^min(6,6)` = 64 seconds. -/
theorem calculateBackoffDelay_below_64s_at_6 :
    calculateBackoffDelay 0 999 6 = 60999000000 ∧
      ¬ (2 ^ (min 6 6) * Second ≤ calculateBackoffDelay 0 999 6) := by
  decide

/-- C9, amended: for a retry count from 0 to 33 and a jitter draw in `[0, 1000)`, the delay is
at least `min(2^r s, 60 s)` and less than 61 seconds. -/
theorem calculateBackoffDelay_bounds (oor : Int) (r j : Int) (hr0 : 0 ≤ r) (hr : r ≤ 33)
    (hj0 : 0 ≤ j) (hj : j < 1000) :
    min (2 ^ r.toNat * Second) (60 * Second) ≤ calculateBackoffDelay oor j r ∧
      calculateBackoffDelay oor j r < 61 * Second := by
  obtain ⟨n, rfl⟩ := Int.eq_ofNat_of_zero_le hr0
  have hn : n ≤ 33 := by omega
  rw [calculateBackoffDelay_eq oor n j hn hj0 hj, Int.toNat_ofNat]
  have hS : Second = 1000000000 := rfl
  have hM : Millisecond = 1000000 := rfl
  have hmin : min (2 ^ n * Second) (60 * Second) ≤ 60 * Second := min_le_right _ _
  constructor
  · rw [hM]; nlinarith
  · rw [hS, hM] at *; nlinarith

/-- The amended C9 at retry count 6 with the largest jitter draw. -/
theorem calculateBackoffDelay_bounds_witness :
    min (2 ^ (6 : Int).toNat * Second) (60 * Second) ≤ calculateBackoffDelay 0 999 6 ∧
      calculateBackoffDelay 0 999 6 < 61 * Second :=
  calculateBackoffDelay_bounds 0 6 999 (by decide) (by decide) (by decide) (by decide)

/-! ## The transition system does not depend on the out-of-range conversion -/

theorem processJobResults_oor (oor oor' : Int) (draw now : Int) (jobResult : JObj) (s : State) :
    processJobResults oor draw now jobResult s = processJobResults oor' draw now jobResult s := by
  unfold processJobResults
  repeat (first | rfl | split)
  rename_i h
  rw [calculateBackoffDelay_oor oor oor' _ _ (by unfold MAX_RETRIES at h; omega)]

theorem leaseMonitorJob_oor (oor oor' : Int) (draw : String → Int) (now : Int) :
    leaseMonitorJob oor draw now = leaseMonitorJob oor' draw now := by
  funext s expiredJob
  unfold leaseMonitorJob
  split
  · rfl
  · rename_i h
    rw [calculateBackoffDelay_oor oor oor' _ _ (by unfold MAX_RETRIES at h; omega)]

theorem step_oor (oor oor' : Int) (now : Int) (a : Action) (s : State) :
    step oor now a s = step oor' now a s := by
  cases a with
  | dispatch dbErr => rfl
  | result draw jobResult =>
    simp only [step]
    rw [processJobResults_oor oor oor']
  | monitor draw =>
    simp only [step, leaseMonitor]
    rw [leaseMonitorJob_oor oor oor']
  | wake i => rfl
  | post i outcome => rfl

theorem runTrace_oor (oor oor' : Int) (tr : List (Int × Action)) (s : State) :
    runTrace oor tr s = runTrace oor' tr s := by
  induction tr generalizing s with
  | nil => rfl
  | cons head rest ih =>
    obtain ⟨now, a⟩ := head
    simp only [runTrace]
    rw [step_oor oor oor']
    cases step oor' now a s with
    | none => rfl
    | some s' => exact ih s'

/-- A time-ordered trace that runs leads to a reachable state. -/
theorem reachable_of_runTrace (oor : Int) (s0 : State) (tr : List (Int × Action)) :
    ∀ (t : Int) (s s' : State), Reachable oor s0 t s → timeOrdered t tr = true →
      runTrace oor tr s = some s' → Reachable oor s0 (endTime t tr) s' := by
  induction tr with
  | nil =>
    intro t s s' hr _ hrun
    simp only [runTrace, Option.some.injEq] at hrun
    subst hrun
    exact hr
  | cons head rest ih =>
    obtain ⟨now, a⟩ := head
    intro t s s' hr hord hrun
    simp only [timeOrdered, Bool.and_eq_true, decide_eq_true_eq] at hord
    simp only [runTrace] at hrun
    cases hstep : step oor now a s with
    | none => rw [hstep] at hrun; exact absurd hrun (by simp)
    | some s1 =>
      rw [hstep] at hrun
      exact ih now s1 s' (Reachable.next a hr hord.1 hstep) hord.2 hrun

/-! ## Lemmas on the reconciler -/

theorem findJob_updateJob (jobs : List JobRow) (jobID : String) (f : JobRow → JobRow)
    (hf : ∀ r, (f r).id = r.id) :
    findJob (updateJob jobs jobID f) jobID = (findJob jobs jobID).map f := by
  induction jobs with
  | nil => rfl
  | cons r rest ih =>
    unfold findJob updateJob at *
    by_cases h : r.id = jobID
    · simp [List.find?, h, hf]
    · simp [List.find?, h, ih]

/-- A result message for a job whose row is `completed` leaves the whole state as it is. -/
theorem processJobResults_of_completed (oor draw now : Int) (jobResult : JObj) (s : State)
    (jobID : String) (row : JobRow) (hid : jobResult.get "job_id" = some (JVal.str jobID))
    (hrow : findJob s.jobs jobID = some row) (hst : row.status = "completed") :
    (processJobResults oor draw now jobResult s).state = s := by
  unfold processJobResults
  rw [hid]
  simp only [asString]
  split
  · rfl
  · split
    · rfl
    · rw [hrow]
      simp only [hst, if_true]

/-- A message that carries `status` and `worker_url` as strings, for a job whose row is
`completed`, does not make the reconciler panic. -/
theorem processJobResults_of_completed_runs (oor draw now : Int) (jobResult : JObj) (s : State)
    (jobID status workerUrl : String) (row : JobRow)
    (hid : jobResult.get "job_id" = some (JVal.str jobID))
    (hstatus : jobResult.get "status" = some (JVal.str status))
    (hworker : jobResult.get "worker_url" = some (JVal.str workerUrl))
    (hrow : findJob s.jobs jobID = some row) (hst : row.status = "completed") :
    (processJobResults oor draw now jobResult s).panicked = false := by
  unfold processJobResults
  rw [hid, hstatus, hworker]
  simp only [asString]
  rw [hrow]
  simp only [hst, if_true]

/-- C2 as stated fails for a `failed` row: a completion report for job 1, whose row is `failed`
with 3 retries, turns the row into `completed` and stores the result. -/
theorem failed_row_overwritten_by_completion :
    (findJob (oneJobState "failed" 3 (some 50) none).jobs "1").map (fun r => r.status)
        = some "failed" ∧
      (findJob (processJobResults 0 0 100 (completionFrom "http://w1")
          (oneJobState "failed" 3 (some 50) none)).state.jobs "1").map
            (fun r => (r.status, r.completed_at, r.result))
        = some ("completed", some 100, some "ok") := by
  decide

/-- C2, amended: for a job whose row is `completed` and every result message that carries the
job's id, one iteration of `processJobResults` leaves the row as it is (a `failed` row is not
protected). -/
theorem completed_row_stable (oor draw now : Int) (jobResult : JObj) (s : State)
    (jobID : String) (row : JobRow) (hid : jobResult.get "job_id" = some (JVal.str jobID))
    (hrow : findJob s.jobs jobID = some row) (hst : row.status = "completed") :
    findJob (processJobResults oor draw now jobResult s).state.jobs jobID = some row := by
  rw [processJobResults_of_completed oor draw now jobResult s jobID row hid hrow hst]
  exact hrow

/-- The amended C2 on a completed job 1 and a failure report for it. -/
theorem completed_row_stable_witness :
    findJob (processJobResults 0 0 100 (failureFrom "http://w1")
        (oneJobState "completed" 0 (some 50) (some "ok"))).state.jobs "1"
      = some (oneJobRow "completed" 0 (some 50) (some "ok")) :=
  completed_row_stable 0 0 100 (failureFrom "http://w1")
    (oneJobState "completed" 0 (some 50) (some "ok")) "1"
    (oneJobRow "completed" 0 (some 50) (some "ok")) rfl (by decide) (by decide)

/-- C3: for a job whose row is `completed` and every result message for that job id, one
iteration of `processJobResults` leaves the jobs table, the workers table (so no
`jobs_completed` is incremented), `job_queue` and `dead_letter_queue` as they are and schedules
no requeue; a message with string `status` and `worker_url` does not stop the reconciler. -/
theorem duplicate_completion_noop (oor draw now : Int) (jobResult : JObj) (s : State)
    (jobID : String) (row : JobRow) (hid : jobResult.get "job_id" = some (JVal.str jobID))
    (hrow : findJob s.jobs jobID = some row) (hst : row.status = "completed") :
    (processJobResults oor draw now jobResult s).state.jobs = s.jobs ∧
      (processJobResults oor draw now jobResult s).state.workers = s.workers ∧
      (processJobResults oor draw now jobResult s).state.job_queue = s.job_queue ∧
      (processJobResults oor draw now jobResult s).state.dead_letter_queue
        = s.dead_letter_queue ∧
      (processJobResults oor draw now jobResult s).state.pending = s.pending ∧
      (∀ status workerUrl : String, jobResult.get "status" = some (JVal.str status) →
        jobResult.get "worker_url" = some (JVal.str workerUrl) →
        (processJobResults oor draw now jobResult s).panicked = false) := by
  rw [processJobResults_of_completed oor draw now jobResult s jobID row hid hrow hst]
  refine ⟨rfl, rfl, rfl, rfl, rfl, ?_⟩
  intro status workerUrl hstatus hworker
  exact processJobResults_of_completed_runs oor draw now jobResult s jobID status workerUrl row
    hid hstatus hworker hrow hst

/-- C3 on a completed job 1 and a second completion report for it: the worker keeps its
count. -/
theorem duplicate_completion_noop_witness :
    (processJobResults 0 0 100 (completionFrom "http://w1")
        (oneJobState "completed" 0 (some 50) (some "ok"))).state.workers
      = [{ url := "http://w1", state := "busy", jobs_completed := 0 }] ∧
    (processJobResults 0 0 100 (completionFrom "http://w1")
        (oneJobState "completed" 0 (some 50) (some "ok"))).panicked = false :=
  have h := duplicate_completion_noop 0 0 100 (completionFrom "http://w1")
    (oneJobState "completed" 0 (some 50) (some "ok")) "1"
    (oneJobRow "completed" 0 (some 50) (some "ok")) rfl (by decide) (by decide)
  ⟨h.2.1, h.2.2.2.2.2 "completed" "http://w1" rfl rfl⟩

/-- C6: for a job that exists and is not `completed` and a result message for it whose status
is not "completed", one iteration of `processJobResults` runs to its end and
(a) with `retries >= MAX_RETRIES` marks the row `failed`, pushes on the left of
`dead_letter_queue` exactly one message, with that job id and reason "max_retries_exceeded",
and schedules no requeue;
(b) with `retries < MAX_RETRIES` pushes nothing on `dead_letter_queue`, leaves the jobs table
as it is, and schedules exactly one requeue of the job, after `calculateBackoffDelay(retries)`. -/
theorem failure_branch (oor draw now : Int) (jobResult : JObj) (s : State)
    (jobID status workerUrl : String) (row : JobRow)
    (hid : jobResult.get "job_id" = some (JVal.str jobID))
    (hstatus : jobResult.get "status" = some (JVal.str status))
    (hworker : jobResult.get "worker_url" = some (JVal.str workerUrl))
    (hfail : status ≠ "completed")
    (hrow : findJob s.jobs jobID = some row) (hst : row.status ≠ "completed") :
    (processJobResults oor draw now jobResult s).panicked = false ∧
    (row.retries ≥ MAX_RETRIES →
      findJob (processJobResults oor draw now jobResult s).state.jobs jobID
          = some { row with status := "failed", completed_at := some now } ∧
        (processJobResults oor draw now jobResult s).state.dead_letter_queue
          = { job_id := jobID, original_job := jobResult, failed_at := now
              reason := "max_retries_exceeded" } :: s.dead_letter_queue ∧
        (processJobResults oor draw now jobResult s).state.pending = s.pending) ∧
    (row.retries < MAX_RETRIES →
      (processJobResults oor draw now jobResult s).state.dead_letter_queue
          = s.dead_letter_queue ∧
        (processJobResults oor draw now jobResult s).state.jobs = s.jobs ∧
        (processJobResults oor draw now jobResult s).state.pending
          = s.pending ++
              [Pending.requeue (now + calculateBackoffDelay oor draw row.retries) jobID]) := by
  by_cases hr : row.retries ≥ MAX_RETRIES
  · have hout : processJobResults oor draw now jobResult s =
        { state :=
            releaseWorker workerUrl
              { sendToDeadLetterQueue now jobID jobResult s with
                jobs := updateJob s.jobs jobID (fun r =>
                  { r with status := "failed", completed_at := some now }) }
          panicked := false } := by
      unfold processJobResults
      rw [hid, hstatus, hworker]
      simp only [asString]
      rw [hrow]
      simp only []
      rw [if_neg hst, if_neg hfail, if_pos hr]
      rfl
    rw [hout]
    refine ⟨rfl, fun _ => ⟨?_, rfl, rfl⟩, fun hlt => absurd hr (not_le.mpr hlt)⟩
    show findJob (updateJob s.jobs jobID _) jobID = _
    rw [findJob_updateJob s.jobs jobID
      (fun r => { r with status := "failed", completed_at := some now }) (fun _ => rfl), hrow]
    rfl
  · have hout : processJobResults oor draw now jobResult s =
        { state :=
            releaseWorker workerUrl
              { s with
                pending :=
                  s.pending ++
                    [Pending.requeue (now + calculateBackoffDelay oor draw row.retries) jobID] }
          panicked := false } := by
      unfold processJobResults
      rw [hid, hstatus, hworker]
      simp only [asString]
      rw [hrow]
      simp only []
      rw [if_neg hst, if_neg hfail, if_neg hr]
    rw [hout]
    exact ⟨rfl, fun h => absurd h hr, fun _ => ⟨rfl, rfl, rfl⟩⟩

/-- C6 on job 1 and a failure report: leased with 3 retries the reconciler parks it, leased
with 2 retries it schedules one requeue, 4 s and the jitter later. -/
theorem failure_branch_witness :
    ((processJobResults 0 0 100 (failureFrom "http://w1")
        (oneJobState "leased" 3 none none)).panicked = false ∧
      (findJob (processJobResults 0 0 100 (failureFrom "http://w1")
          (oneJobState "leased" 3 none none)).state.jobs "1").map (fun r => r.status)
        = some "failed" ∧
      ((processJobResults 0 0 100 (failureFrom "http://w1")
          (oneJobState "leased" 3 none none)).state.dead_letter_queue).map
            (fun m => (m.job_id, m.reason))
        = [("1", "max_retries_exceeded")]) ∧
    ((processJobResults 0 7 100 (failureFrom "http://w1")
        (oneJobState "leased" 2 none none)).state.dead_letter_queue.length = 0 ∧
      (processJobResults 0 7 100 (failureFrom "http://w1")
          (oneJobState "leased" 2 none none)).state.pending
        = [Pending.requeue (100 + calculateBackoffDelay 0 7 2) "1"]) :=
  have h := failure_branch 0 0 100 (failureFrom "http://w1") (oneJobState "leased" 3 none none)
    "1" "error" "http://w1" (oneJobRow "leased" 3 none none) rfl rfl rfl (by decide)
    (by decide) (by decide)
  have h2 := h.2.1 (by decide)
  have g := failure_branch 0 7 100 (failureFrom "http://w1") (oneJobState "leased" 2 none none)
    "1" "error" "http://w1" (oneJobRow "leased" 2 none none) rfl rfl rfl (by decide)
    (by decide) (by decide)
  have g2 := g.2.2 (by decide)
  ⟨⟨h.1, by rw [h2.1]; rfl, by rw [h2.2.1]; rfl⟩, by rw [g2.1]; rfl, by rw [g2.2.2]; rfl⟩
/-! ## Lemmas on worker selection -/

theorem workerLe_total (a b : WorkerRow) : workerLe a b ∨ workerLe b a := by
  unfold workerLe
  rcases lt_trichotomy a.jobs_completed b.jobs_completed with h | h | h
  · exact Or.inl (Or.inl h)
  · rcases le_total a.url.toList b.url.toList with hu | hu
    · exact Or.inl (Or.inr ⟨h, hu⟩)
    · exact Or.inr (Or.inr ⟨h.symm, hu⟩)
  · exact Or.inr (Or.inl h)

theorem workerLe_trans (a b c : WorkerRow) (hab : workerLe a b) (hbc : workerLe b c) :
    workerLe a c := by
  unfold workerLe at *
  rcases hab with h1 | ⟨h1, u1⟩
  · rcases hbc with h2 | ⟨h2, _⟩
    · exact Or.inl (lt_trans h1 h2)
    · exact Or.inl (h2 ▸ h1)
  · rcases hbc with h2 | ⟨h2, u2⟩
    · exact Or.inl (h1 ▸ h2)
    · exact Or.inr ⟨h1.trans h2, le_trans u1 u2⟩

/-- The order of the query in terms of the order of strings. -/
theorem workerLe_iff (a b : WorkerRow) :
    workerLe a b ↔
      a.jobs_completed < b.jobs_completed ∨
        (a.jobs_completed = b.jobs_completed ∧ a.url ≤ b.url) := by
  unfold workerLe
  have hu : a.url.toList ≤ b.url.toList ↔ a.url ≤ b.url := by
    rw [← not_lt, ← not_lt, String.lt_iff_toList_lt]
  rw [hu]

theorem mem_availableWorkers (ws : List WorkerRow) (w : WorkerRow) :
    w ∈ availableWorkers ws ↔ w ∈ ws ∧ w.state = "available" := by
  unfold availableWorkers
  simp [List.mem_filter]

/-- With no available worker the query has no row. -/
theorem selectWorker_none (ws : List WorkerRow) (h : availableWorkers ws = []) :
    selectWorker ws = none := by
  unfold selectWorker
  rw [h]
  rfl

/-- With an available worker the query returns the url of a least one. -/
theorem selectWorker_some (ws : List WorkerRow) (h : availableWorkers ws ≠ []) :
    ∃ w ∈ availableWorkers ws, selectWorker ws = some w.url ∧
      ∀ w' ∈ availableWorkers ws, workerLe w w' := by
  haveI hTotal : IsTotal WorkerRow workerLe := ⟨workerLe_total⟩
  haveI hTrans : IsTrans WorkerRow workerLe := ⟨workerLe_trans⟩
  have hperm := List.perm_insertionSort workerLe (availableWorkers ws)
  have hsorted := List.sorted_insertionSort workerLe (availableWorkers ws)
  unfold selectWorker
  cases hL : (availableWorkers ws).insertionSort workerLe with
  | nil =>
    rw [hL] at hperm
    exact absurd hperm.symm.eq_nil h
  | cons w rest =>
    rw [hL] at hperm hsorted
    refine ⟨w, hperm.subset (List.mem_cons_self w rest), rfl, ?_⟩
    intro w' hw'
    have hmem : w' ∈ w :: rest := hperm.symm.subset hw'
    rcases List.mem_cons.mp hmem with rfl | hin
    · rcases workerLe_total w' w' with h1 | h1 <;> exact h1
    · exact List.rel_of_sorted_cons hsorted w' hin

theorem availableWorkers_eq_nil_iff (ws : List WorkerRow) :
    availableWorkers ws = [] ↔ ¬ ∃ w ∈ ws, w.state = "available" := by
  constructor
  · rintro h ⟨w, hw, hst⟩
    have hmem : w ∈ availableWorkers ws := (mem_availableWorkers ws w).mpr ⟨hw, hst⟩
    rw [h] at hmem
    exact List.not_mem_nil w hmem
  · intro h
    apply List.eq_nil_iff_forall_not_mem.mpr
    intro w hw
    exact h ⟨w, ((mem_availableWorkers ws w).mp hw).1, ((mem_availableWorkers ws w).mp hw).2⟩

theorem selectWorkerAndLeaseJob_none (now : Int) (job : Job) (s : State)
    (h : selectWorker s.workers = none) :
    selectWorkerAndLeaseJob false now job s = { workerUrl := "", err := false, state := s } := by
  unfold selectWorkerAndLeaseJob
  rw [h]
  rfl

theorem selectWorkerAndLeaseJob_some (now : Int) (job : Job) (s : State) (u : String)
    (h : selectWorker s.workers = some u) :
    selectWorkerAndLeaseJob false now job s =
      { workerUrl := u
        err := false
        state :=
          { s with
            jobs := updateJob s.jobs job.ID (fun r =>
              { r with
                status := "leased"
                lease_start := some now
                lease_timeout := some 20
                leased_to_worker := some u })
            workers := updateWorker s.workers u (fun w => { w with state := "busy" }) } } := by
  unfold selectWorkerAndLeaseJob
  rw [h]
  rfl

/-- C4: without a database error `selectWorkerAndLeaseJob` returns no error; it returns the url
of an available worker exactly when some worker is available, and then the url of the one with
the least `jobs_completed`, the least url among equals; with no available worker it returns
the empty url and leaves both tables as they are.  When no worker has the empty url, the
returned url is non-empty exactly when some worker is available. -/
theorem selectWorkerAndLeaseJob_selection (now : Int) (job : Job) (s : State) :
    (selectWorkerAndLeaseJob false now job s).err = false ∧
    ((∃ w ∈ s.workers, w.state = "available" ∧
        (selectWorkerAndLeaseJob false now job s).workerUrl = w.url) ↔
      ∃ w ∈ s.workers, w.state = "available") ∧
    ((∃ w ∈ s.workers, w.state = "available") →
      ∃ w ∈ s.workers, w.state = "available" ∧
        (selectWorkerAndLeaseJob false now job s).workerUrl = w.url ∧
        ∀ w' ∈ s.workers, w'.state = "available" →
          w.jobs_completed < w'.jobs_completed ∨
            (w.jobs_completed = w'.jobs_completed ∧ w.url ≤ w'.url)) ∧
    ((¬ ∃ w ∈ s.workers, w.state = "available") →
      (selectWorkerAndLeaseJob false now job s).workerUrl = "" ∧
        (selectWorkerAndLeaseJob false now job s).state.jobs = s.jobs ∧
        (selectWorkerAndLeaseJob false now job s).state.workers = s.workers) ∧
    ((∀ w ∈ s.workers, w.url ≠ "") →
      ((selectWorkerAndLeaseJob false now job s).workerUrl ≠ "" ↔
        ∃ w ∈ s.workers, w.state = "available")) := by
  by_cases hav : ∃ w ∈ s.workers, w.state = "available"
  · have hne : availableWorkers s.workers ≠ [] := fun h =>
      (availableWorkers_eq_nil_iff s.workers).mp h hav
    obtain ⟨w, hw, hsel, hmin⟩ := selectWorker_some s.workers hne
    have hwm := (mem_availableWorkers s.workers w).mp hw
    rw [selectWorkerAndLeaseJob_some now job s w.url hsel]
    refine ⟨rfl, ⟨fun _ => hav, fun _ => ⟨w, hwm.1, hwm.2, rfl⟩⟩, fun _ => ?_,
      fun hno => absurd hav hno, fun hurl => ⟨fun _ => hav, fun _ => hurl w hwm.1⟩⟩
    refine ⟨w, hwm.1, hwm.2, rfl, ?_⟩
    intro w' hw' hst'
    exact (workerLe_iff w w').mp (hmin w' ((mem_availableWorkers s.workers w').mpr ⟨hw', hst'⟩))
  · have hnil := (availableWorkers_eq_nil_iff s.workers).mpr hav
    rw [selectWorkerAndLeaseJob_none now job s (selectWorker_none s.workers hnil)]
    refine ⟨rfl, ⟨fun h => ?_, fun h => absurd h hav⟩, fun h => absurd h hav,
      fun _ => ⟨rfl, rfl, rfl⟩, fun _ => ⟨fun h => absurd rfl h, fun h => absurd h hav⟩⟩
    obtain ⟨w, hw, hst, _⟩ := h
    exact ⟨w, hw, hst⟩

/-! ## Lemmas on consecutive leases -/

theorem map_url_updateWorker (ws : List WorkerRow) (u : String) (f : WorkerRow → WorkerRow)
    (hf : ∀ w, (f w).url = w.url) :
    (updateWorker ws u f).map (fun w => w.url) = ws.map (fun w => w.url) := by
  unfold updateWorker
  rw [List.map_map]
  apply List.map_congr_left
  intro w _
  simp only [Function.comp]
  split
  · exact hf w
  · rfl

/-- Marking the worker `u` busy removes the rows with url `u` from the available ones and
keeps the others. -/
theorem availableWorkers_busy (ws : List WorkerRow) (u : String) :
    availableWorkers (updateWorker ws u (fun w => { w with state := "busy" })) =
      (availableWorkers ws).filter (fun w => decide (w.url ≠ u)) := by
  unfold availableWorkers updateWorker
  induction ws with
  | nil => rfl
  | cons w rest ih =>
    rw [List.map_cons]
    by_cases hu : w.url = u
    · rw [if_pos hu]
      by_cases hs : w.state = "available"
      · simp [List.filter_cons, hs, hu, ih]
      · simp [List.filter_cons, hs, ih]
    · rw [if_neg hu]
      by_cases hs : w.state = "available"
      · simp [List.filter_cons, hs, hu, ih]
      · simp [List.filter_cons, hs, ih]

/-- In a list with pairwise distinct urls, removing the rows with the url of a member removes
that member only. -/
theorem perm_url_filter_ne (l : List WorkerRow) (w : WorkerRow)
    (hnd : (l.map (fun x => x.url)).Nodup) (hw : w ∈ l) :
    (l.map (fun x => x.url)).Perm
      (w.url :: (l.filter (fun x => decide (x.url ≠ w.url))).map (fun x => x.url)) := by
  induction l with
  | nil => exact absurd hw (List.not_mem_nil w)
  | cons x rest ih =>
    rw [List.map_cons, List.nodup_cons] at hnd
    rcases List.mem_cons.mp hw with rfl | hin
    · have hall : ∀ y ∈ rest, decide (y.url ≠ w.url) = true := by
        intro y hy
        rw [decide_eq_true_eq]
        intro hyw
        exact hnd.1 (hyw ▸ List.mem_map_of_mem (fun x => x.url) hy)
      rw [List.filter_cons_of_neg (by simp), List.filter_eq_self.mpr hall]
      exact List.Perm.refl _
    · have hne : x.url ≠ w.url := by
        intro hxw
        exact hnd.1 (hxw ▸ List.mem_map_of_mem (fun x => x.url) hin)
      rw [List.filter_cons_of_pos (by simpa using hne), List.map_cons]
      exact ((ih hnd.2 hin).cons x.url).trans (List.Perm.swap _ _ _)

theorem nodup_url_availableWorkers (ws : List WorkerRow)
    (hkey : (ws.map (fun w => w.url)).Nodup) :
    ((availableWorkers ws).map (fun w => w.url)).Nodup :=
  List.Nodup.sublist (List.Sublist.map _ (List.filter_sublist ws)) hkey

/-- C5: in a workers table with pairwise distinct urls, as many consecutive calls of
`selectWorkerAndLeaseJob` as there are available workers, with no other operation in between,
all return without error, and the urls returned are pairwise distinct and are, up to order, the
urls of the available workers: each of them gets exactly one job.  (This holds whatever the
`jobs_completed` of the workers, so in particular when they are equal.) -/
theorem fair_dispatch (calls : List (Int × Job)) (s : State)
    (hkey : (s.workers.map (fun w => w.url)).Nodup)
    (hcount : calls.length = (availableWorkers s.workers).length) :
    (∀ r ∈ leaseEach calls s, r.err = false) ∧
      ((leaseEach calls s).map (fun r => r.workerUrl)).Perm
        ((availableWorkers s.workers).map (fun w => w.url)) ∧
      ((leaseEach calls s).map (fun r => r.workerUrl)).Nodup := by
  have hmain : ∀ (calls : List (Int × Job)) (s : State),
      (s.workers.map (fun w => w.url)).Nodup →
      calls.length = (availableWorkers s.workers).length →
      (∀ r ∈ leaseEach calls s, r.err = false) ∧
        ((leaseEach calls s).map (fun r => r.workerUrl)).Perm
          ((availableWorkers s.workers).map (fun w => w.url)) := by
    intro calls
    induction calls with
    | nil =>
      intro s _ hcount
      have hnil : availableWorkers s.workers = [] :=
        List.length_eq_zero.mp (by rw [← hcount]; rfl)
      rw [hnil]
      exact ⟨fun r hr => absurd hr (List.not_mem_nil r), List.Perm.refl _⟩
    | cons call rest ih =>
      intro s hkey hcount
      obtain ⟨now, job⟩ := call
      have hne : availableWorkers s.workers ≠ [] := by
        intro h
        rw [h] at hcount
        simp at hcount
      obtain ⟨w, hw, hsel, _⟩ := selectWorker_some s.workers hne
      have hres := selectWorkerAndLeaseJob_some now job s w.url hsel
      have hperm := perm_url_filter_ne (availableWorkers s.workers) w
        (nodup_url_availableWorkers s.workers hkey) hw
      have hworkers : (selectWorkerAndLeaseJob false now job s).state.workers =
          updateWorker s.workers w.url (fun x => { x with state := "busy" }) := by
        rw [hres]
      have hav : availableWorkers (selectWorkerAndLeaseJob false now job s).state.workers =
          (availableWorkers s.workers).filter (fun x => decide (x.url ≠ w.url)) := by
        rw [hworkers, availableWorkers_busy]
      have hkey' : ((selectWorkerAndLeaseJob false now job s).state.workers.map
          (fun x => x.url)).Nodup := by
        rw [hworkers, map_url_updateWorker s.workers w.url
          (fun x => { x with state := "busy" }) (fun _ => rfl)]
        exact hkey
      have hlen : rest.length =
          (availableWorkers (selectWorkerAndLeaseJob false now job s).state.workers).length := by
        have h1 := hperm.length_eq
        rw [List.length_map, List.length_cons, List.length_map, ← hav] at h1
        rw [List.length_cons] at hcount
        omega
      obtain ⟨herr, hrest⟩ := ih _ hkey' hlen
      have hurl : (selectWorkerAndLeaseJob false now job s).workerUrl = w.url := by rw [hres]
      have herr0 : (selectWorkerAndLeaseJob false now job s).err = false := by rw [hres]
      constructor
      · intro r hr
        simp only [leaseEach, List.mem_cons] at hr
        rcases hr with rfl | hr
        · exact herr0
        · exact herr r hr
      · simp only [leaseEach, List.map_cons]
        rw [hurl]
        rw [hav] at hrest
        exact (hrest.cons w.url).trans hperm.symm
  obtain ⟨herr, hperm⟩ := hmain calls s hkey hcount
  exact ⟨herr, hperm, hperm.symm.nodup_iff.mp (nodup_url_availableWorkers s.workers hkey)⟩

/-- C5 on three available workers with the same count and three jobs: the calls return the
three workers, in the order of their urls. -/
theorem fair_dispatch_witness :
    (fairState.workers.map (fun w => w.url)).Nodup ∧
      fairCalls.length = (availableWorkers fairState.workers).length ∧
      (∀ r ∈ leaseEach fairCalls fairState, r.err = false) ∧
      ((leaseEach fairCalls fairState).map (fun r => r.workerUrl)).Perm
        ((availableWorkers fairState.workers).map (fun w => w.url)) ∧
      ((leaseEach fairCalls fairState).map (fun r => r.workerUrl)).Nodup :=
  ⟨by decide, by decide, fair_dispatch fairCalls fairState (by decide) (by decide)⟩

/-! ## Lemmas on the heartbeat verifier -/

theorem mem_updateWorker_of_ne (ws : List WorkerRow) (u : String) (f : WorkerRow → WorkerRow)
    (w : WorkerRow) (hne : w.url ≠ u) (hw : w ∈ ws) : w ∈ updateWorker ws u f := by
  unfold updateWorker
  exact List.mem_map.mpr ⟨w, hw, if_neg hne⟩

theorem mem_updateWorker_self (ws : List WorkerRow) (f : WorkerRow → WorkerRow)
    (w : WorkerRow) (hw : w ∈ ws) : f w ∈ updateWorker ws w.url f := by
  unfold updateWorker
  exact List.mem_map.mpr ⟨w, hw, if_pos rfl⟩

/-- The verifier's treatment of a row with another url keeps the row `w`. -/
theorem heartbeatWorker_keeps (keys : List String) (st : State) (x w : WorkerRow)
    (hne : x.url ≠ w.url) (hw : w ∈ st.workers) : w ∈ (heartbeatWorker keys st x).workers := by
  unfold heartbeatWorker
  split
  · split
    · exact mem_updateWorker_of_ne st.workers x.url _ w (Ne.symm hne) hw
    · exact hw
  · split
    · exact mem_updateWorker_of_ne st.workers x.url _ w (Ne.symm hne) hw
    · exact hw

theorem heartbeat_foldl_keeps (keys : List String) (l : List WorkerRow) (w : WorkerRow)
    (hne : ∀ x ∈ l, x.url ≠ w.url) :
    ∀ st : State, w ∈ st.workers → w ∈ (l.foldl (heartbeatWorker keys) st).workers := by
  induction l with
  | nil => intro st hw; exact hw
  | cons x rest ih =>
    intro st hw
    rw [List.foldl_cons]
    exact ih (fun y hy => hne y (List.mem_cons_of_mem x hy)) _
      (heartbeatWorker_keeps keys st x w (hne x (List.mem_cons_self x rest)) hw)

theorem heartbeatWorker_urls (keys : List String) (st : State) (x : WorkerRow) :
    (heartbeatWorker keys st x).workers.map (fun w => w.url)
      = st.workers.map (fun w => w.url) := by
  unfold heartbeatWorker updateWorkerState
  split
  · split
    · exact map_url_updateWorker st.workers x.url
        (fun w => { w with state := "available" }) (fun _ => rfl)
    · rfl
  · split
    · exact map_url_updateWorker st.workers x.url
        (fun w => { w with state := "unavailable" }) (fun _ => rfl)
    · rfl

theorem heartbeat_foldl_urls (keys : List String) (l : List WorkerRow) :
    ∀ st : State, (l.foldl (heartbeatWorker keys) st).workers.map (fun w => w.url)
      = st.workers.map (fun w => w.url) := by
  induction l with
  | nil => intro st; rfl
  | cons x rest ih =>
    intro st
    rw [List.foldl_cons, ih, heartbeatWorker_urls]

/-- In a list with pairwise distinct urls a member splits the list into rows with other
urls. -/
theorem split_at_worker (l : List WorkerRow) (w : WorkerRow)
    (hnd : (l.map (fun x => x.url)).Nodup) (hw : w ∈ l) :
    ∃ l1 l2, l = l1 ++ w :: l2 ∧ (∀ x ∈ l1, x.url ≠ w.url) ∧ (∀ x ∈ l2, x.url ≠ w.url) := by
  obtain ⟨l1, l2, rfl⟩ := List.append_of_mem hw
  refine ⟨l1, l2, rfl, ?_, ?_⟩
  · intro x hx hxw
    rw [List.map_append, List.map_cons] at hnd
    have hdisj := (List.nodup_append.mp hnd).2.2
    exact hdisj (List.mem_map_of_mem (fun x => x.url) hx) (hxw ▸ List.mem_cons_self _ _)
  · intro x hx hxw
    rw [List.map_append, List.map_cons] at hnd
    have hcons := (List.nodup_append.mp hnd).2.1
    exact (List.nodup_cons.mp hcons).1 (hxw ▸ List.mem_map_of_mem (fun x => x.url) hx)

/-- C10 as stated fails: a busy worker whose heartbeat key is absent is set to
`unavailable` by one pass of the verifier. -/
theorem busy_worker_without_key_disturbed :
    (oneJobState "leased" 0 none none).workers.map (fun w => (w.url, w.state))
        = [("http://w1", "busy")] ∧
      (workerHeartbeatVerifier [] (oneJobState "leased" 0 none none)).workers.map
          (fun w => (w.url, w.state))
        = [("http://w1", "unavailable")] := by
  decide

/-- C10, amended: in a workers table with pairwise distinct urls, one pass of
`workerHeartbeatVerifier` leaves the row of a busy worker as it is when the key of the worker
is present, and sets its state to `unavailable`, leaving its count, when the key is absent; the
urls of the table stay the same. -/
theorem heartbeat_busy_worker (keys : List String) (s : State) (w : WorkerRow)
    (hkey : (s.workers.map (fun x => x.url)).Nodup) (hw : w ∈ s.workers)
    (hbusy : w.state = "busy") :
    (("worker:" ++ w.url) ∈ keys → w ∈ (workerHeartbeatVerifier keys s).workers) ∧
      (("worker:" ++ w.url) ∉ keys →
        { w with state := "unavailable" } ∈ (workerHeartbeatVerifier keys s).workers) ∧
      (workerHeartbeatVerifier keys s).workers.map (fun x => x.url)
        = s.workers.map (fun x => x.url) := by
  have hlen : ¬ s.workers.length = 0 := by
    intro h
    rw [List.length_eq_zero.mp h] at hw
    exact List.not_mem_nil w hw
  unfold workerHeartbeatVerifier
  rw [if_neg hlen]
  obtain ⟨l1, l2, hsplit, h1, h2⟩ := split_at_worker s.workers w hkey hw
  have hstate : w.state ≠ "unavailable" := by rw [hbusy]; decide
  have hfold : s.workers.foldl (heartbeatWorker keys) s
      = l2.foldl (heartbeatWorker keys)
          (heartbeatWorker keys (l1.foldl (heartbeatWorker keys) s) w) := by
    conv_lhs => rw [hsplit]
    rw [List.foldl_append, List.foldl_cons]
  have hmid : w ∈ (l1.foldl (heartbeatWorker keys) s).workers :=
    heartbeat_foldl_keeps keys l1 w h1 s hw
  refine ⟨fun hpresent => ?_, fun habsent => ?_, heartbeat_foldl_urls keys s.workers s⟩
  · rw [hfold]
    apply heartbeat_foldl_keeps keys l2 w h2
    unfold heartbeatWorker
    rw [if_pos hpresent, if_neg hstate]
    exact hmid
  · rw [hfold]
    apply heartbeat_foldl_keeps keys l2 { w with state := "unavailable" } h2
    unfold heartbeatWorker
    rw [if_neg habsent, if_pos hstate]
    exact mem_updateWorker_self _ (fun x => { x with state := "unavailable" }) w hmid

/-- The amended C10 on a busy worker whose key is present. -/
theorem heartbeat_busy_worker_witness :
    ({ url := "http://w1", state := "busy", jobs_completed := 0 } : WorkerRow) ∈
      (workerHeartbeatVerifier ["worker:http://w1"] (oneJobState "leased" 0 none none)).workers :=
  (heartbeat_busy_worker ["worker:http://w1"] (oneJobState "leased" 0 none none)
    { url := "http://w1", state := "busy", jobs_completed := 0 }
    (by decide) (by decide) (by decide)).1 (by decide)

/-! ## Lemmas on the lease monitor -/

theorem mem_updateJob_of_ne (jobs : List JobRow) (jobID : String) (f : JobRow → JobRow)
    (r : JobRow) (hne : r.id ≠ jobID) (hr : r ∈ jobs) : r ∈ updateJob jobs jobID f := by
  unfold updateJob
  exact List.mem_map.mpr ⟨r, hr, if_neg hne⟩

theorem mem_updateJob_self (jobs : List JobRow) (f : JobRow → JobRow) (r : JobRow)
    (hr : r ∈ jobs) : f r ∈ updateJob jobs r.id f := by
  unfold updateJob
  exact List.mem_map.mpr ⟨r, hr, if_pos rfl⟩

/-- The monitor's treatment of an expired job with another id keeps the row `r`. -/
theorem leaseMonitorJob_keeps (oor : Int) (draw : String → Int) (now : Int) (st : State)
    (x r : JobRow) (hne : x.id ≠ r.id) (hr : r ∈ st.jobs) :
    r ∈ (leaseMonitorJob oor draw now st x).jobs := by
  unfold leaseMonitorJob
  split
  · exact mem_updateJob_of_ne _ x.id _ r (Ne.symm hne) hr
  · exact mem_updateJob_of_ne _ x.id _ r (Ne.symm hne) hr

theorem leaseMonitor_foldl_keeps (oor : Int) (draw : String → Int) (now : Int)
    (l : List JobRow) (r : JobRow) (hne : ∀ x ∈ l, x.id ≠ r.id) :
    ∀ st : State, r ∈ st.jobs → r ∈ (l.foldl (leaseMonitorJob oor draw now) st).jobs := by
  induction l with
  | nil => intro st hr; exact hr
  | cons x rest ih =>
    intro st hr
    rw [List.foldl_cons]
    exact ih (fun y hy => hne y (List.mem_cons_of_mem x hy)) _
      (leaseMonitorJob_keeps oor draw now st x r (hne x (List.mem_cons_self x rest)) hr)

theorem leaseMonitorJob_dlq_parked (oor : Int) (draw : String → Int) (now : Int) (st : State)
    (x : JobRow) (h : x.retries ≥ MAX_RETRIES) :
    (leaseMonitorJob oor draw now st x).dead_letter_queue
      = { job_id := x.id, original_job := timeoutResult x, failed_at := now
          reason := "max_retries_exceeded" } :: st.dead_letter_queue := by
  unfold leaseMonitorJob
  rw [if_pos h]
  rfl

theorem leaseMonitorJob_dlq_retried (oor : Int) (draw : String → Int) (now : Int) (st : State)
    (x : JobRow) (h : ¬ x.retries ≥ MAX_RETRIES) :
    (leaseMonitorJob oor draw now st x).dead_letter_queue = st.dead_letter_queue := by
  unfold leaseMonitorJob
  rw [if_neg h]

/-- The monitor only pushes on the left of `dead_letter_queue`. -/
theorem leaseMonitor_foldl_dlq (oor : Int) (draw : String → Int) (now : Int)
    (l : List JobRow) :
    ∀ st : State, ∃ newer,
      (l.foldl (leaseMonitorJob oor draw now) st).dead_letter_queue
        = newer ++ st.dead_letter_queue := by
  induction l with
  | nil => intro st; exact ⟨[], rfl⟩
  | cons x rest ih =>
    intro st
    rw [List.foldl_cons]
    obtain ⟨newer, hnewer⟩ := ih (leaseMonitorJob oor draw now st x)
    rw [hnewer]
    by_cases h : x.retries ≥ MAX_RETRIES
    · rw [leaseMonitorJob_dlq_parked oor draw now st x h]
      exact ⟨newer ++ [{ job_id := x.id, original_job := timeoutResult x, failed_at := now
                         reason := "max_retries_exceeded" }], by simp⟩
    · rw [leaseMonitorJob_dlq_retried oor draw now st x h]
      exact ⟨newer, rfl⟩

/-- In a list with pairwise distinct ids a member splits the list into rows with other ids. -/
theorem split_at_job (l : List JobRow) (r : JobRow)
    (hnd : (l.map (fun x => x.id)).Nodup) (hr : r ∈ l) :
    ∃ l1 l2, l = l1 ++ r :: l2 ∧ (∀ x ∈ l1, x.id ≠ r.id) ∧ (∀ x ∈ l2, x.id ≠ r.id) := by
  obtain ⟨l1, l2, rfl⟩ := List.append_of_mem hr
  refine ⟨l1, l2, rfl, ?_, ?_⟩
  · intro x hx hxr
    rw [List.map_append, List.map_cons] at hnd
    have hdisj := (List.nodup_append.mp hnd).2.2
    exact hdisj (List.mem_map_of_mem (fun x => x.id) hx) (hxr ▸ List.mem_cons_self _ _)
  · intro x hx hxr
    rw [List.map_append, List.map_cons] at hnd
    have hcons := (List.nodup_append.mp hnd).2.1
    exact (List.nodup_cons.mp hcons).1 (hxr ▸ List.mem_map_of_mem (fun x => x.id) hx)

/-- C7 as stated fails: after a pass of `leaseMonitor` over job 1, leased at time 0 with
3 retries and expired at 21 s, the job is `failed` and the one message of `dead_letter_queue`
has the reason "max_retries_exceeded", so none has the reason "timeout". -/
theorem expired_lease_reason_not_timeout :
    (leaseMonitor 0 (fun _ => 0) 21000000000 stalledState).jobs.map
          (fun r => (r.id, r.status))
        = [("1", "failed")] ∧
      (leaseMonitor 0 (fun _ => 0) 21000000000 stalledState).dead_letter_queue.map
          (fun m => (m.job_id, m.reason))
        = [("1", "max_retries_exceeded")] ∧
      ∀ m ∈ (leaseMonitor 0 (fun _ => 0) 21000000000 stalledState).dead_letter_queue,
        m.reason ≠ "timeout" := by
  decide

/-- C7, amended: in a jobs table with pairwise distinct ids, for a leased job whose lease has
expired and whose retries are at least `MAX_RETRIES`, one pass of `leaseMonitor` marks the
row `failed` and pushes on the left of `dead_letter_queue` a message for that job id whose
reason is "max_retries_exceeded"; the word "timeout" is the `status` of its `original_job`. -/
theorem expired_lease_parked (oor : Int) (draw : String → Int) (now : Int) (s : State)
    (row : JobRow) (hkey : (s.jobs.map (fun r => r.id)).Nodup) (hrow : row ∈ s.jobs)
    (hleased : row.status = "leased") (hexpired : leaseExpired now row = true)
    (hretries : row.retries ≥ MAX_RETRIES) :
    { row with status := "failed", completed_at := some now }
        ∈ (leaseMonitor oor draw now s).jobs ∧
      (∃ newer older,
        (leaseMonitor oor draw now s).dead_letter_queue
          = newer ++
              { job_id := row.id, original_job := timeoutResult row, failed_at := now
                reason := "max_retries_exceeded" } :: (older ++ s.dead_letter_queue)) ∧
      (timeoutResult row).get "status" = some (JVal.str "timeout") := by
  have hmem : row ∈ expiredLeases now s.jobs := by
    unfold expiredLeases
    exact List.mem_filter.mpr ⟨hrow, by simp [hleased, hexpired]⟩
  have hnd : ((expiredLeases now s.jobs).map (fun r => r.id)).Nodup :=
    List.Nodup.sublist (List.Sublist.map _ (List.filter_sublist s.jobs)) hkey
  obtain ⟨l1, l2, hsplit, h1, h2⟩ := split_at_job (expiredLeases now s.jobs) row hnd hmem
  have hfold : leaseMonitor oor draw now s
      = l2.foldl (leaseMonitorJob oor draw now)
          (leaseMonitorJob oor draw now (l1.foldl (leaseMonitorJob oor draw now) s) row) := by
    unfold leaseMonitor
    rw [hsplit, List.foldl_append, List.foldl_cons]
  have hmid : row ∈ (l1.foldl (leaseMonitorJob oor draw now) s).jobs :=
    leaseMonitor_foldl_keeps oor draw now l1 row h1 s hrow
  obtain ⟨older, holder⟩ := leaseMonitor_foldl_dlq oor draw now l1 s
  obtain ⟨newer, hnewer⟩ := leaseMonitor_foldl_dlq oor draw now l2
    (leaseMonitorJob oor draw now (l1.foldl (leaseMonitorJob oor draw now) s) row)
  refine ⟨?_, ⟨newer, older, ?_⟩, rfl⟩
  · rw [hfold]
    apply leaseMonitor_foldl_keeps oor draw now l2
      { row with status := "failed", completed_at := some now } h2
    unfold leaseMonitorJob
    rw [if_pos hretries]
    exact mem_updateJob_self _ (fun r => { r with status := "failed", completed_at := some now })
      row hmid
  · rw [hfold, hnewer, leaseMonitorJob_dlq_parked oor draw now _ row hretries, holder]

/-- The amended C7 on job 1, leased at time 0 with 3 retries, at 21 s. -/
theorem expired_lease_parked_witness :
    oneJobRow "failed" 3 (some 21000000000) none
      ∈ (leaseMonitor 0 (fun _ => 0) 21000000000 stalledState).jobs :=
  (expired_lease_parked 0 (fun _ => 0) 21000000000 stalledState (oneJobRow "leased" 3 none none)
    (by decide) (by decide) (by decide) (by decide) (by decide)).1

/-! ## Panics of the reconciler and the effect of a lease -/

/-- A result message whose `job_id`, `status` and `worker_url` are strings, and which, when it
reports "completed", has a string `result` and no `created_at` other than a string, does not
make the reconciler panic. -/
theorem processJobResults_runs (oor draw now : Int) (jobResult : JObj) (s : State)
    (jobID status workerUrl : String)
    (hid : jobResult.get "job_id" = some (JVal.str jobID))
    (hstatus : jobResult.get "status" = some (JVal.str status))
    (hworker : jobResult.get "worker_url" = some (JVal.str workerUrl))
    (hdone : status = "completed" →
      createdAtOk (jobResult.get "created_at") = true ∧
        ∃ result, jobResult.get "result" = some (JVal.str result)) :
    (processJobResults oor draw now jobResult s).panicked = false := by
  unfold processJobResults
  rw [hid, hstatus, hworker]
  simp only [asString]
  cases findJob s.jobs jobID with
  | none => rfl
  | some row =>
    simp only []
    by_cases hc : row.status = "completed"
    · rw [if_pos hc]
    · rw [if_neg hc]
      by_cases hs : status = "completed"
      · obtain ⟨hcreated, result, hresult⟩ := hdone hs
        rw [if_pos hs, if_pos hcreated, hresult]
      · rw [if_neg hs]
        by_cases hr : row.retries ≥ MAX_RETRIES
        · rw [if_pos hr]
        · rw [if_neg hr]

/-- C11 (code defect): a result message that is a JSON object can make one iteration of
`processJobResults` panic, and the reconciler then makes no further move.  It does so, in any
state, when `job_id` is missing or is a number, and, for the leased job 1, when a "completed"
report has no `result` or has a numeric `created_at`. -/
theorem malformed_result_panics (oor draw now : Int) (s : State) :
    (processJobResults oor draw now [] s).panicked = true ∧
      (processJobResults oor draw now resultWithoutJobId s).panicked = true ∧
      (processJobResults oor draw now resultWithNumericJobId s).panicked = true ∧
      (processJobResults oor draw now completionWithoutResult
          (oneJobState "leased" 0 none none)).panicked = true ∧
      (processJobResults oor draw now completionWithNumericCreatedAt
          (oneJobState "leased" 0 none none)).panicked = true ∧
      step oor now (Action.result draw completionWithoutResult)
          (oneJobState "leased" 0 none none) = none := by
  refine ⟨rfl, rfl, rfl, rfl, rfl, rfl⟩

/-- A url returned by the query is the url of an available worker. -/
theorem selectWorker_mem (ws : List WorkerRow) (u : String) (h : selectWorker ws = some u) :
    ∃ w ∈ ws, w.state = "available" ∧ w.url = u := by
  have hne : availableWorkers ws ≠ [] := by
    intro hnil
    rw [selectWorker_none ws hnil] at h
    exact absurd h (by simp)
  obtain ⟨w, hw, hsel, _⟩ := selectWorker_some ws hne
  rw [hsel] at h
  exact ⟨w, ((mem_availableWorkers ws w).mp hw).1, ((mem_availableWorkers ws w).mp hw).2,
    Option.some.inj h⟩

/-- A call that returns a non-empty url met no database error and got that url from the
query. -/
theorem selectWorker_of_returned (dbErr : Bool) (now : Int) (job : Job) (s : State)
    (u : String) (hurl : (selectWorkerAndLeaseJob dbErr now job s).workerUrl = u)
    (hu : u ≠ "") : dbErr = false ∧ selectWorker s.workers = some u := by
  unfold selectWorkerAndLeaseJob at hurl
  cases dbErr with
  | true => exact absurd hurl.symm hu
  | false =>
    refine ⟨rfl, ?_⟩
    cases hsel : selectWorker s.workers with
    | none =>
      rw [hsel] at hurl
      exact absurd hurl.symm hu
    | some v =>
      rw [hsel] at hurl
      exact congrArg some hurl

/-- C12: when job `j` exists and `selectWorkerAndLeaseJob` returns the worker `u` for it, the
call returns no error and changes the state in exactly this: the row of `j` gets status
`leased`, `lease_start` the time of the call, `lease_timeout` 20 and `leased_to_worker` `u`,
all its other columns and all other rows of `jobs` staying as they are; the row of `u`, which
was available, gets state `busy` and keeps its `jobs_completed`, all other rows of `workers`
staying as they are; the lists and the sleeping goroutines are untouched.  So every row of
`j` is `leased` with its three lease columns set. -/
theorem lease_effect (dbErr : Bool) (now : Int) (job : Job) (s : State) (row : JobRow)
    (u : String) (hrow : findJob s.jobs job.ID = some row)
    (hurl : (selectWorkerAndLeaseJob dbErr now job s).workerUrl = u) (hu : u ≠ "") :
    (selectWorkerAndLeaseJob dbErr now job s).err = false ∧
      findJob (selectWorkerAndLeaseJob dbErr now job s).state.jobs job.ID
        = some { row with
                 status := "leased"
                 lease_start := some now
                 lease_timeout := some 20
                 leased_to_worker := some u } ∧
      (selectWorkerAndLeaseJob dbErr now job s).state.jobs
        = s.jobs.map (fun r =>
            if r.id = job.ID then
              { r with
                status := "leased"
                lease_start := some now
                lease_timeout := some 20
                leased_to_worker := some u }
            else r) ∧
      (selectWorkerAndLeaseJob dbErr now job s).state.workers
        = s.workers.map (fun w => if w.url = u then { w with state := "busy" } else w) ∧
      (∃ w ∈ s.workers, w.url = u ∧ w.state = "available" ∧
        { w with state := "busy" } ∈ (selectWorkerAndLeaseJob dbErr now job s).state.workers) ∧
      (selectWorkerAndLeaseJob dbErr now job s).state.job_queue = s.job_queue ∧
      (selectWorkerAndLeaseJob dbErr now job s).state.dead_letter_queue
        = s.dead_letter_queue ∧
      (selectWorkerAndLeaseJob dbErr now job s).state.pending = s.pending ∧
      (∀ r ∈ (selectWorkerAndLeaseJob dbErr now job s).state.jobs, r.id = job.ID →
        r.status = "leased" ∧ r.lease_start = some now ∧ r.lease_timeout = some 20 ∧
          r.leased_to_worker = some u) := by
  obtain ⟨hdb, hsel⟩ := selectWorker_of_returned dbErr now job s u hurl hu
  subst hdb
  obtain ⟨w, hw, hav, hwu⟩ := selectWorker_mem s.workers u hsel
  rw [selectWorkerAndLeaseJob_some now job s u hsel]
  refine ⟨rfl, ?_, rfl, rfl, ⟨w, hw, hwu, hav, ?_⟩, rfl, rfl, rfl, ?_⟩
  · show findJob (updateJob s.jobs job.ID _) job.ID = _
    rw [findJob_updateJob s.jobs job.ID
      (fun r => { r with
                  status := "leased"
                  lease_start := some now
                  lease_timeout := some 20
                  leased_to_worker := some u }) (fun _ => rfl), hrow]
    rfl
  · show _ ∈ updateWorker s.workers u _
    rw [← hwu]
    exact mem_updateWorker_self s.workers (fun x => { x with state := "busy" }) w hw
  · intro r hr hid
    have hr' : r ∈ updateJob s.jobs job.ID (fun r =>
        { r with
          status := "leased"
          lease_start := some now
          lease_timeout := some 20
          leased_to_worker := some u }) := hr
    unfold updateJob at hr'
    obtain ⟨r0, _, hr0⟩ := List.mem_map.mp hr'
    by_cases h0 : r0.id = job.ID
    · rw [if_pos h0] at hr0
      subst hr0
      exact ⟨rfl, rfl, rfl, rfl⟩
    · rw [if_neg h0] at hr0
      subst hr0
      exact absurd hid h0

/-- C12 on the first of the three jobs of `fairState`: it is leased to the worker with the
least url among the three available ones. -/
theorem lease_effect_witness :
    (selectWorkerAndLeaseJob false 7 { ID := "1", Name := "A", Payload := "x" }
        fairState).workerUrl = "http://w1" ∧
      (selectWorkerAndLeaseJob false 7 { ID := "1", Name := "A", Payload := "x" }
          fairState).err = false ∧
      findJob (selectWorkerAndLeaseJob false 7 { ID := "1", Name := "A", Payload := "x" }
          fairState).state.jobs "1"
        = some { id := "1", name := "A", payload := "x", status := "leased", retries := 0
                 lease_start := some 7, lease_timeout := some 20
                 leased_to_worker := some "http://w1"
                 completed_at := none, result := none } :=
  have h := lease_effect false 7 { ID := "1", Name := "A", Payload := "x" } fairState
    { id := "1", name := "A", payload := "x", status := "pending", retries := 0
      lease_start := none, lease_timeout := none, leased_to_worker := none
      completed_at := none, result := none }
    "http://w1" (by decide) (by decide) (by decide)
  ⟨by decide, h.1, h.2.1⟩

set_option maxRecDepth 100000

/-- The run is possible from `raceInit` and ends in a state where job 1 is at the right end of
`job_queue` with 4 retries on its row and an available worker to lease it to. -/
theorem race_reaches (oor : Int) :
    ∃ (s : State) (row : JobRow),
      Reachable oor raceInit 28000000000 s ∧
        s.job_queue.getLast? = some job1 ∧
        findJob s.jobs job1.ID = some row ∧
        row.retries = 4 ∧
        (selectWorkerAndLeaseJob false 28000000000 job1
            { s with job_queue := s.job_queue.dropLast }).workerUrl = "http://w1" ∧
        (selectWorkerAndLeaseJob false 28000000000 job1
            { s with job_queue := s.job_queue.dropLast }).err = false := by
  have hc : raceCheck oor = true := by
    have h0 : raceCheck 0 = true := by decide
    unfold raceCheck at h0 ⊢
    rw [runTrace_oor oor 0]
    exact h0
  unfold raceCheck at hc
  cases hrun : runTrace oor raceTrace raceInit with
  | none => rw [hrun] at hc; exact absurd hc (by simp)
  | some s =>
    rw [hrun] at hc
    simp only [Bool.and_eq_true, beq_iff_eq] at hc
    obtain ⟨⟨⟨hq, hrow⟩, hurl⟩, herr⟩ := hc
    obtain ⟨row, hfind, hret⟩ := Option.map_eq_some'.mp hrow
    have hreach : Reachable oor raceInit (endTime 0 raceTrace) s :=
      reachable_of_runTrace oor raceInit raceTrace 0 raceInit s (Reachable.start 0)
        (by decide) hrun
    exact ⟨s, row, hreach, hq, hfind, hret, hurl, herr⟩

theorem freshJobs_raceInit : FreshJobs raceInit := by
  intro r hr
  simp only [raceInit, List.mem_singleton] at hr
  subst hr
  exact ⟨rfl, rfl⟩

/-- C1 (code defect): from one fresh job and two available workers the coordinator reaches,
28 s later, a state in which `selectWorkerAndLeaseJob` leases the job with 4 retries on its
row, more than `MAX_RETRIES`: a late failure report and the lease monitor each requeue the
job, and each of the two executions that follow schedules a further requeue. -/
theorem lease_with_four_retries (oor : Int) :
    ∃ (s : State) (row : JobRow),
      FreshJobs raceInit ∧
        Reachable oor raceInit 28000000000 s ∧
        s.job_queue.getLast? = some job1 ∧
        findJob s.jobs job1.ID = some row ∧
        (selectWorkerAndLeaseJob false 28000000000 job1
            { s with job_queue := s.job_queue.dropLast }).workerUrl = "http://w1" ∧
        (selectWorkerAndLeaseJob false 28000000000 job1
            { s with job_queue := s.job_queue.dropLast }).err = false ∧
        row.retries = 4 ∧ MAX_RETRIES < row.retries := by
  obtain ⟨s, row, hreach, hq, hfind, hret, hurl, herr⟩ := race_reaches oor
  exact ⟨s, row, freshJobs_raceInit, hreach, hq, hfind, hurl, herr, hret, by rw [hret]; decide⟩

/-- The claim of bounded retries at lease acquisition does not hold of the transition
system. -/
theorem not_boundedRetriesAtLease (oor : Int) : ¬ BoundedRetriesAtLease oor := by
  intro hbound
  obtain ⟨s, row, hreach, hq, hfind, hret, hurl, herr⟩ := race_reaches oor
  have hle := hbound raceInit _ s freshJobs_raceInit hreach 28000000000 false job1 row
    (le_refl _) hq hfind (by rw [hurl]; decide) herr
  rw [hret] at hle
  exact absurd hle (by decide)

end Coordinator
